import Mathlib

/-!
Shallow embedding of the review-queue coordinator implemented in
`slack_handler.go` (the canonical chat-command path of the
sawitpro-code-review-queue repository).

Each Slack handler is modelled as a pure function from the handler state
(the `Queues` map together with the `NextID` counter) and the inbound
message (`text`, `user`) to the successor state plus the ordered trace of
observable events: mutex acquisitions (`Event.lock`), releases
(`Event.unlock`) and outbound `PostMessage` calls (`Event.post`).  The
event trace follows the Go source line by line, including the position of
`defer sh.mu.Unlock()` (which fires at each return point) and of the
manual `sh.mu.Unlock()` calls around early returns.
-/

/-- Splitting accumulator for `fields`: mirrors `strings.Fields`,
collecting the current word in reverse. -/
def splitWSAux : List Char → List Char → List String
  | [], acc => if acc.isEmpty then [] else [String.mk acc.reverse]
  | c :: cs, acc =>
    if c.isWhitespace then
      if acc.isEmpty then splitWSAux cs []
      else String.mk acc.reverse :: splitWSAux cs []
    else splitWSAux cs (c :: acc)

/-- `strings.Fields`: split around runs of whitespace, dropping empties. -/
def fields (s : String) : List String :=
  splitWSAux s.data []

/-- Decimal digit accumulation for `strconv.Atoi`; fails on any
non-digit character. -/
def digitsValAux : List Char → Nat → Option Nat
  | [], acc => some acc
  | c :: cs, acc =>
    if c.isDigit then digitsValAux cs (acc * 10 + (c.toNat - 48)) else none

/-- Value of a non-empty all-digit character list, `none` otherwise. -/
def digitsVal : List Char → Option Nat
  | [] => none
  | c :: cs => digitsValAux (c :: cs) 0

/-- `strconv.Atoi`: optional sign followed by at least one digit. -/
def atoi? (s : String) : Option Int :=
  match s.data with
  | '-' :: cs => (digitsVal cs).map (fun n => -(Int.ofNat n))
  | '+' :: cs => (digitsVal cs).map Int.ofNat
  | cs => (digitsVal cs).map Int.ofNat

/-- `strings.Join xs ", "` and friends. -/
def strJoin (sep : String) : List String → String
  | [] => ""
  | [x] => x
  | x :: y :: xs => x ++ sep ++ strJoin sep (y :: xs)

/-- Fuel-driven most-significant-first decimal digits of `n`. -/
def natDigits : Nat → Nat → List Char
  | 0, _ => []
  | fuel + 1, n =>
    if n < 10 then [Char.ofNat (48 + n)]
    else natDigits fuel (n / 10) ++ [Char.ofNat (48 + n % 10)]

/-- Decimal rendering of a natural number. -/
def natToStr (n : Nat) : String :=
  String.mk (natDigits (n + 1) n)

/-- `fmt`'s `%d` on a Go `int`. -/
def intToStr : Int → String
  | Int.ofNat n => natToStr n
  | Int.negSucc n => "-" ++ natToStr (n + 1)

/-- Does the character list start with the pattern? -/
def startsWithChars : List Char → List Char → Bool
  | _, [] => true
  | [], _ :: _ => false
  | a :: as, b :: bs => a == b && startsWithChars as bs

/-- Is the pattern a contiguous sublist of the character list? -/
def containsChars : List Char → List Char → Bool
  | s, pat =>
    match s with
    | [] => startsWithChars [] pat
    | _ :: rest => startsWithChars s pat || containsChars rest pat

/-- Substring containment on strings. -/
def strContains (s sub : String) : Bool :=
  containsChars s.data sub.data

/-- The `Queue` struct of `slack_handler.go`. -/
structure Queue where
  id : Int
  title : String
  mrLink : String
  tags : List String
  owner : String
  inReviewState : Bool
deriving Repr, DecidableEq

/-- The mutable fields of `SlackHandler`: the `Queues` map (as an
association list keyed by id) and the `NextID` counter. -/
structure SlackHandler where
  queues : List (Int × Queue)
  nextID : Int
deriving Repr, DecidableEq

/-- `NewSlackHandler`: empty map, counter starts at 1. -/
def newSlackHandler : SlackHandler :=
  { queues := [], nextID := 1 }

/-- Observable events of a handler invocation, in source order. -/
inductive Event where
  | lock : Event
  | unlock : Event
  | post : String → Event
deriving Repr, DecidableEq

/-- The messages posted in an event trace, in order. -/
def postsOf : List Event → List String
  | [] => []
  | Event.post m :: es => m :: postsOf es
  | Event.lock :: es => postsOf es
  | Event.unlock :: es => postsOf es

/-- Map lookup `sh.Queues[id]`. -/
def findQueue : List (Int × Queue) → Int → Option Queue
  | [], _ => none
  | p :: rest, i => if p.1 = i then some p.2 else findQueue rest i

/-- In-place mutation through the `*Queue` pointer stored under key `i`. -/
def updateQueue (qs : List (Int × Queue)) (i : Int) (f : Queue → Queue) :
    List (Int × Queue) :=
  qs.map (fun p => if p.1 = i then (p.1, f p.2) else p)

/-- `delete(sh.Queues, id)`. -/
def eraseQueue (qs : List (Int × Queue)) (i : Int) : List (Int × Queue) :=
  qs.filter (fun p => p.1 ≠ i)

/-- `parseQueueID`: third whitespace-separated token as an integer. -/
def parseQueueID (command : String) : Except String Int :=
  let parts := fields command
  if parts.length < 3 then Except.error "Usage: <command> <id>"
  else
    match atoi? (parts.getD 2 "") with
    | some i => Except.ok i
    | none => Except.error "Invalid queue ID."

/-- The Slack mention form `<@user>` built by `handleQueueApprove`. -/
def approvedTagOf (user : String) : String :=
  "<@" ++ user ++ ">"

/-- First index of an exact tag match, mirroring the search loop in
`handleQueueApprove` (`-1` becomes `none`). -/
def findTagIndex : List String → String → Option Nat
  | [], _ => none
  | x :: xs, t => if x = t then some 0 else (findTagIndex xs t).map (· + 1)

/-- `handleQueueAdd`. -/
def handleQueueAdd (sh : SlackHandler) (text user : String) :
    SlackHandler × List Event :=
  let parts := fields text
  if parts.length < 4 then
    (sh, [Event.post "Usage: queue add <title> <MR link> @tag @tag"])
  else
    let queue : Queue :=
      { id := sh.nextID
        title := parts.getD 2 ""
        mrLink := parts.getD 3 ""
        tags := parts.drop 4
        owner := user
        inReviewState := false }
    let sh' : SlackHandler :=
      { queues := sh.queues ++ [(sh.nextID, queue)], nextID := sh.nextID + 1 }
    let msg := "Queue added: *" ++ queue.title ++ "*\nMR Link: " ++ queue.mrLink
      ++ "\nTags: " ++ strJoin ", " queue.tags
    (sh', [Event.lock, Event.post msg, Event.unlock])

/-- One display line of `handleQueueList`. -/
def renderQueueLine (q : Queue) : String :=
  let mention :=
    if q.inReviewState then "Owner: <@" ++ q.owner ++ ">"
    else "Tags: " ++ strJoin ", " q.tags
  "ID: " ++ intToStr q.id ++ " | Title: " ++ q.title ++ " | MR: " ++ q.mrLink
    ++ " | " ++ mention ++ "\n"

/-- The `strings.Builder` accumulation over all entries. -/
def renderQueueList : List (Int × Queue) → String
  | [] => ""
  | p :: rest => renderQueueLine p.2 ++ renderQueueList rest

/-- `handleQueueList`. -/
def handleQueueList (sh : SlackHandler) : SlackHandler × List Event :=
  if sh.queues.isEmpty then
    (sh, [Event.lock, Event.post "No queues available.", Event.unlock])
  else
    (sh, [Event.lock, Event.post (renderQueueList sh.queues), Event.unlock])

/-- `handleQueueRemove`. -/
def handleQueueRemove (sh : SlackHandler) (text : String) :
    SlackHandler × List Event :=
  match parseQueueID text with
  | Except.error e => (sh, [Event.post e])
  | Except.ok i =>
    match findQueue sh.queues i with
    | none => (sh, [Event.lock, Event.post "Queue not found.", Event.unlock])
    | some _ =>
      ({ sh with queues := eraseQueue sh.queues i },
       [Event.lock, Event.post "Queue removed.", Event.unlock])

/-- `handleQueueApprove`. -/
def handleQueueApprove (sh : SlackHandler) (text user : String) :
    SlackHandler × List Event :=
  let parts := fields text
  if parts.length < 3 then
    (sh, [Event.post "Usage: queue approve <id>"])
  else
    match atoi? (parts.getD 2 "") with
    | none => (sh, [Event.post "Invalid queue ID."])
    | some i =>
      match findQueue sh.queues i with
      | none => (sh, [Event.lock, Event.unlock, Event.post "Queue not found."])
      | some queue =>
        if queue.tags.length > 0 then
          match findTagIndex queue.tags (approvedTagOf user) with
          | some tagIndex =>
            let sh' : SlackHandler :=
              { sh with
                  queues := updateQueue sh.queues i
                    (fun q =>
                      { q with
                          tags := q.tags.take tagIndex
                            ++ q.tags.drop (tagIndex + 1) }) }
            (sh',
             [Event.lock, Event.unlock,
              Event.post "Queue approved and tag removed."]
               ++ (handleQueueList sh').2)
          | none =>
            (sh,
             [Event.lock, Event.unlock,
              Event.post "Your tag was not found in the queue."])
        else
          (sh,
           [Event.lock, Event.unlock,
            Event.post "Queue completed; no tags left."]
             ++ (handleQueueList sh).2)

/-- `handleQueueReview`. -/
def handleQueueReview (sh : SlackHandler) (text : String) :
    SlackHandler × List Event :=
  match parseQueueID text with
  | Except.error e => (sh, [Event.post e])
  | Except.ok i =>
    match findQueue sh.queues i with
    | none => (sh, [Event.lock, Event.unlock, Event.post "Queue not found."])
    | some queue =>
      let sh' : SlackHandler :=
        { sh with
            queues := updateQueue sh.queues i
              (fun q => { q with inReviewState := true }) }
      (sh',
       [Event.lock, Event.post ("Queue " ++ intToStr queue.id ++ " is now in review."),
        Event.unlock]
         ++ (handleQueueList sh').2)

/-- `handleQueueUpdate`. -/
def handleQueueUpdate (sh : SlackHandler) (text : String) :
    SlackHandler × List Event :=
  match parseQueueID text with
  | Except.error e => (sh, [Event.post e])
  | Except.ok i =>
    match findQueue sh.queues i with
    | none => (sh, [Event.lock, Event.unlock, Event.post "Queue not found."])
    | some queue =>
      let sh' : SlackHandler :=
        { sh with
            queues := updateQueue sh.queues i
              (fun q => { q with inReviewState := false }) }
      (sh',
       [Event.lock,
        Event.post ("Queue " ++ intToStr queue.id
          ++ " has been updated and is no longer in review."),
        Event.unlock]
         ++ (handleQueueList sh').2)

/-- Depth-tracking scan: does some post happen at positive lock depth? -/
def postsWhileLockedAux : List Event → Nat → Bool
  | [], _ => false
  | Event.lock :: es, d => postsWhileLockedAux es (d + 1)
  | Event.unlock :: es, d => postsWhileLockedAux es (d - 1)
  | Event.post _ :: es, d => decide (0 < d) || postsWhileLockedAux es d

/-- Some outbound post is delivered while the mutex is held. -/
def postsWhileLocked (es : List Event) : Bool :=
  postsWhileLockedAux es 0

/-- A concrete entry used by witnesses. -/
def qEx : Queue :=
  { id := 1
    title := "Fix"
    mrLink := "http://x"
    tags := ["<@alice>", "<@bob>"]
    owner := "carol"
    inReviewState := false }

/-- A concrete one-entry handler state used by witnesses. -/
def shEx : SlackHandler :=
  { queues := [(1, qEx)], nextID := 2 }

theorem findQueue_updateQueue_self (f : Queue → Queue) :
    ∀ (qs : List (Int × Queue)) (i : Int) (q : Queue),
      findQueue qs i = some q →
      findQueue (updateQueue qs i f) i = some (f q) := by
  intro qs
  induction qs with
  | nil => intro i q h; simp [findQueue] at h
  | cons p rest ih =>
    intro i q h
    by_cases hp : p.1 = i
    · rw [findQueue, if_pos hp] at h
      cases h
      simp only [updateQueue, List.map_cons, if_pos hp]
      rw [findQueue, if_pos hp]
    · rw [findQueue, if_neg hp] at h
      simp only [updateQueue, List.map_cons, if_neg hp]
      rw [findQueue, if_neg hp]
      exact ih i q h

theorem findQueue_updateQueue_ne (f : Queue → Queue) :
    ∀ (qs : List (Int × Queue)) (i j : Int), j ≠ i →
      findQueue (updateQueue qs i f) j = findQueue qs j := by
  intro qs
  induction qs with
  | nil => intro i j _; rfl
  | cons p rest ih =>
    intro i j hj
    by_cases hp : p.1 = i
    · simp only [updateQueue, List.map_cons, if_pos hp]
      rw [findQueue, findQueue, if_neg (hp ▸ Ne.symm hj), if_neg (hp ▸ Ne.symm hj)]
      exact ih i j hj
    · simp only [updateQueue, List.map_cons, if_neg hp]
      by_cases hpj : p.1 = j
      · rw [findQueue, findQueue, if_pos hpj, if_pos hpj]
      · rw [findQueue, findQueue, if_neg hpj, if_neg hpj]
        exact ih i j hj

theorem updateQueue_map_fst (qs : List (Int × Queue)) (i : Int)
    (f : Queue → Queue) :
    (updateQueue qs i f).map Prod.fst = qs.map Prod.fst := by
  induction qs with
  | nil => rfl
  | cons p rest ih =>
    simp only [updateQueue, List.map_cons] at *
    by_cases hp : p.1 = i
    · rw [if_pos hp]; simpa using ih
    · rw [if_neg hp]; simpa using ih

theorem findTagIndex_eq_none_iff (t : String) :
    ∀ l : List String, findTagIndex l t = none ↔ t ∉ l := by
  intro l
  induction l with
  | nil => simp [findTagIndex]
  | cons x xs ih =>
    by_cases hx : x = t
    · simp [findTagIndex, hx]
    · simp [findTagIndex, hx, ih, Ne.symm hx]

theorem findTagIndex_isSome_of_mem {t : String} {l : List String}
    (h : t ∈ l) : ∃ n, findTagIndex l t = some n := by
  cases hf : findTagIndex l t with
  | none => exact absurd h ((findTagIndex_eq_none_iff t l).mp hf)
  | some n => exact ⟨n, rfl⟩

theorem findTagIndex_spec (t : String) :
    ∀ (l : List String) (n : Nat),
      findTagIndex l t = some n →
      ∃ pre post, l = pre ++ t :: post ∧ t ∉ pre ∧
        l.take n ++ l.drop (n + 1) = pre ++ post := by
  intro l
  induction l with
  | nil => intro n h; simp [findTagIndex] at h
  | cons x xs ih =>
    intro n h
    by_cases hx : x = t
    · rw [findTagIndex, if_pos hx] at h
      cases h
      exact ⟨[], xs, by simp [hx], by simp, by simp⟩
    · rw [findTagIndex, if_neg hx] at h
      cases hm : findTagIndex xs t with
      | none => rw [hm] at h; simp at h
      | some m =>
        rw [hm] at h
        simp only [Option.map_some'] at h
        obtain ⟨pre, post, hl, hpre, htd⟩ := ih m hm
        refine ⟨x :: pre, post, by simp [hl], ?_, ?_⟩
        · simp only [List.mem_cons, not_or]
          exact ⟨fun he => hx he.symm, hpre⟩
        · cases h
          simp only [List.take_succ_cons, List.drop_succ_cons, List.cons_append]
          rw [htd]

theorem approve_eq_found (sh : SlackHandler) (text user : String)
    (i : Int) (q : Queue) (n : Nat)
    (hlen : ¬ (fields text).length < 3)
    (hid : atoi? ((fields text).getD 2 "") = some i)
    (hq : findQueue sh.queues i = some q)
    (hpos : q.tags.length > 0)
    (hfind : findTagIndex q.tags (approvedTagOf user) = some n) :
    handleQueueApprove sh text user =
      ({ sh with
           queues := updateQueue sh.queues i
             (fun q' => { q' with tags := q'.tags.take n ++ q'.tags.drop (n + 1) }) },
       [Event.lock, Event.unlock, Event.post "Queue approved and tag removed."]
         ++ (handleQueueList
              { sh with
                  queues := updateQueue sh.queues i
                    (fun q' =>
                      { q' with
                          tags := q'.tags.take n ++ q'.tags.drop (n + 1) }) }).2) := by
  unfold handleQueueApprove
  simp only [if_neg hlen, hid, hq, hfind]
  rw [if_pos hpos]

theorem approve_eq_absent (sh : SlackHandler) (text user : String)
    (i : Int) (q : Queue)
    (hlen : ¬ (fields text).length < 3)
    (hid : atoi? ((fields text).getD 2 "") = some i)
    (hq : findQueue sh.queues i = some q)
    (hpos : q.tags.length > 0)
    (hfind : findTagIndex q.tags (approvedTagOf user) = none) :
    handleQueueApprove sh text user =
      (sh, [Event.lock, Event.unlock,
            Event.post "Your tag was not found in the queue."]) := by
  unfold handleQueueApprove
  simp only [if_neg hlen, hid, hq, hfind]
  rw [if_pos hpos]

theorem approve_eq_empty (sh : SlackHandler) (text user : String)
    (i : Int) (q : Queue)
    (hlen : ¬ (fields text).length < 3)
    (hid : atoi? ((fields text).getD 2 "") = some i)
    (hq : findQueue sh.queues i = some q)
    (hempty : q.tags = []) :
    handleQueueApprove sh text user =
      (sh, [Event.lock, Event.unlock,
            Event.post "Queue completed; no tags left."]
        ++ (handleQueueList sh).2) := by
  unfold handleQueueApprove
  simp only [if_neg hlen, hid, hq]
  rw [if_neg (by simp [hempty])]

theorem review_eq_found (sh : SlackHandler) (text : String)
    (i : Int) (q : Queue)
    (hR : parseQueueID text = Except.ok i)
    (hq : findQueue sh.queues i = some q) :
    (handleQueueReview sh text).1 =
      { sh with
          queues := updateQueue sh.queues i
            (fun q' => { q' with inReviewState := true }) } := by
  unfold handleQueueReview
  simp only [hR, hq]

theorem update_eq_found (sh : SlackHandler) (text : String)
    (i : Int) (q : Queue)
    (hU : parseQueueID text = Except.ok i)
    (hq : findQueue sh.queues i = some q) :
    (handleQueueUpdate sh text).1 =
      { sh with
          queues := updateQueue sh.queues i
            (fun q' => { q' with inReviewState := false }) } := by
  unfold handleQueueUpdate
  simp only [hU, hq]

/-- An entry whose tags are exhausted, used by witnesses. -/
def qDone : Queue :=
  { qEx with tags := [] }

/-- Handler state holding only the exhausted entry. -/
def shDone : SlackHandler :=
  { queues := [(1, qDone)], nextID := 2 }

/-- An entry tagged with a bare `@alice` (not the `<@...>` mention form). -/
def qBare : Queue :=
  { qEx with tags := ["@alice"] }

/-- Handler state holding only the bare-tagged entry. -/
def shBare : SlackHandler :=
  { queues := [(1, qBare)], nextID := 2 }

/-- An entry with a single remaining tag. -/
def qOne : Queue :=
  { qEx with tags := ["<@alice>"] }

/-- Handler state holding only the single-tag entry. -/
def shOne : SlackHandler :=
  { queues := [(1, qOne)], nextID := 2 }

/-- C1: when the approving user's tag representation `<@user>` occurs in the
entry's tags, `handleQueueApprove` removes exactly the first such occurrence
— the tags decompose as `pre ++ tag :: post` with no occurrence in `pre`,
and become `pre ++ post` — leaving all other tags unchanged and in their
original relative order, and leaving every other registry entry
untouched. -/
theorem approve_removes_first_tag_occurrence
    (sh : SlackHandler) (text user : String) (i : Int) (q : Queue)
    (hlen : 3 ≤ (fields text).length)
    (hid : atoi? ((fields text).getD 2 "") = some i)
    (hq : findQueue sh.queues i = some q)
    (hmem : approvedTagOf user ∈ q.tags) :
    ∃ pre post,
      q.tags = pre ++ approvedTagOf user :: post ∧
      approvedTagOf user ∉ pre ∧
      findQueue (handleQueueApprove sh text user).1.queues i =
        some { q with tags := pre ++ post } ∧
      ∀ j, j ≠ i →
        findQueue (handleQueueApprove sh text user).1.queues j =
          findQueue sh.queues j := by
  obtain ⟨n, hfind⟩ := findTagIndex_isSome_of_mem hmem
  have hpos : q.tags.length > 0 := List.length_pos.mpr (List.ne_nil_of_mem hmem)
  obtain ⟨pre, post, hl, hpre, htd⟩ := findTagIndex_spec _ _ _ hfind
  simp only [approve_eq_found sh text user i q n (Nat.not_lt.mpr hlen) hid hq
    hpos hfind]
  refine ⟨pre, post, hl, hpre, ?_, ?_⟩
  · rw [findQueue_updateQueue_self
      (fun q' => { q' with tags := q'.tags.take n ++ q'.tags.drop (n + 1) })
      sh.queues i q hq]
    simp only [htd]
  · intro j hj
    exact findQueue_updateQueue_ne _ sh.queues i j hj

/-- C1 witness: approving entry 1 of the two-tag example state as `alice`
removes `<@alice>` and keeps `<@bob>`. -/
theorem approve_removes_first_tag_occurrence_witness :
    ∃ pre post,
      qEx.tags = pre ++ approvedTagOf "alice" :: post ∧
      approvedTagOf "alice" ∉ pre ∧
      findQueue (handleQueueApprove shEx "queue approve 1" "alice").1.queues 1 =
        some { qEx with tags := pre ++ post } ∧
      ∀ j, j ≠ (1 : Int) →
        findQueue (handleQueueApprove shEx "queue approve 1" "alice").1.queues j =
          findQueue shEx.queues j :=
  approve_removes_first_tag_occurrence shEx "queue approve 1" "alice" 1 qEx
    (by decide) (by decide) (by decide) (by decide)

/-- C3: approving an entry with non-empty tags that contain no occurrence of
the approving user's tag representation fails with the Forbidden notice and
performs no mutation at all: the returned state is exactly the input state
and the only event is the plain notice. -/
theorem approve_missing_tag_forbidden_no_mutation
    (sh : SlackHandler) (text user : String) (i : Int) (q : Queue)
    (hlen : 3 ≤ (fields text).length)
    (hid : atoi? ((fields text).getD 2 "") = some i)
    (hq : findQueue sh.queues i = some q)
    (hne : q.tags ≠ [])
    (hnot : approvedTagOf user ∉ q.tags) :
    handleQueueApprove sh text user =
      (sh, [Event.lock, Event.unlock,
            Event.post "Your tag was not found in the queue."]) :=
  approve_eq_absent sh text user i q (Nat.not_lt.mpr hlen) hid hq
    (List.length_pos.mpr hne) ((findTagIndex_eq_none_iff _ _).mpr hnot)

/-- C3 witness: `dave` is not tagged in the example entry, so approval is
forbidden and the state is unchanged. -/
theorem approve_missing_tag_forbidden_no_mutation_witness :
    handleQueueApprove shEx "queue approve 1" "dave" =
      (shEx, [Event.lock, Event.unlock,
              Event.post "Your tag was not found in the queue."]) :=
  approve_missing_tag_forbidden_no_mutation shEx "queue approve 1" "dave" 1 qEx
    (by decide) (by decide) (by decide) (by decide) (by decide)

/-- C4: approving an entry whose tags are already empty succeeds for any
user as a no-op completion notice — not a Forbidden or other error — and
leaves the registry state exactly unchanged. -/
theorem approve_empty_tags_completion_noop
    (sh : SlackHandler) (text user : String) (i : Int) (q : Queue)
    (hlen : 3 ≤ (fields text).length)
    (hid : atoi? ((fields text).getD 2 "") = some i)
    (hq : findQueue sh.queues i = some q)
    (hempty : q.tags = []) :
    (handleQueueApprove sh text user).1 = sh ∧
    postsOf (handleQueueApprove sh text user).2 =
      "Queue completed; no tags left." :: postsOf (handleQueueList sh).2 := by
  rw [approve_eq_empty sh text user i q (Nat.not_lt.mpr hlen) hid hq hempty]
  exact ⟨rfl, rfl⟩

/-- C4 witness: approving the exhausted entry as `carol` yields the
completion notice and leaves the state unchanged. -/
theorem approve_empty_tags_completion_noop_witness :
    (handleQueueApprove shDone "queue approve 1" "carol").1 = shDone ∧
    postsOf (handleQueueApprove shDone "queue approve 1" "carol").2 =
      "Queue completed; no tags left." :: postsOf (handleQueueList shDone).2 :=
  approve_empty_tags_completion_noop shDone "queue approve 1" "carol" 1 qDone
    (by decide) (by decide) (by decide) (by decide)

/-- C8: removing the last remaining tag by a successful approve keeps the
entry present in the registry under its id with tags now empty and every
other field (including `inReviewState`) unchanged; no entry is deleted, no
completion flag exists to be set, and the id counter is untouched. -/
theorem approve_last_tag_entry_persists
    (sh : SlackHandler) (text user : String) (i : Int) (q : Queue)
    (hlen : 3 ≤ (fields text).length)
    (hid : atoi? ((fields text).getD 2 "") = some i)
    (hq : findQueue sh.queues i = some q)
    (hone : q.tags = [approvedTagOf user]) :
    findQueue (handleQueueApprove sh text user).1.queues i =
      some { q with tags := [] } ∧
    (handleQueueApprove sh text user).1.queues.map Prod.fst =
      sh.queues.map Prod.fst ∧
    (handleQueueApprove sh text user).1.nextID = sh.nextID := by
  have hpos : q.tags.length > 0 := by rw [hone]; simp
  have hfind : findTagIndex q.tags (approvedTagOf user) = some 0 := by
    rw [hone]; simp [findTagIndex]
  simp only [approve_eq_found sh text user i q 0 (Nat.not_lt.mpr hlen) hid hq
    hpos hfind]
  refine ⟨?_, updateQueue_map_fst _ _ _, trivial⟩
  rw [findQueue_updateQueue_self
    (fun q' => { q' with tags := q'.tags.take 0 ++ q'.tags.drop 1 })
    sh.queues i q hq]
  simp [hone]

/-- C8 witness: approving the single-tag entry as `alice` leaves the entry
in place with empty tags and the same id set and counter. -/
theorem approve_last_tag_entry_persists_witness :
    findQueue (handleQueueApprove shOne "queue approve 1" "alice").1.queues 1 =
      some { qOne with tags := [] } ∧
    (handleQueueApprove shOne "queue approve 1" "alice").1.queues.map Prod.fst =
      shOne.queues.map Prod.fst ∧
    (handleQueueApprove shOne "queue approve 1" "alice").1.nextID =
      shOne.nextID :=
  approve_last_tag_entry_persists shOne "queue approve 1" "alice" 1 qOne
    (by decide) (by decide) (by decide) (by decide)

/-- C10: on a non-empty tag list, `handleQueueApprove` fails with the
Forbidden notice (and no mutation) exactly when no element of the tags
equals the literal string `<@user>`; tags stored in any other form — such
as a bare `@name` — can therefore never be removed by approval. -/
theorem approve_exact_tag_format_iff
    (sh : SlackHandler) (text user : String) (i : Int) (q : Queue)
    (hlen : 3 ≤ (fields text).length)
    (hid : atoi? ((fields text).getD 2 "") = some i)
    (hq : findQueue sh.queues i = some q)
    (hne : q.tags ≠ []) :
    (handleQueueApprove sh text user =
        (sh, [Event.lock, Event.unlock,
              Event.post "Your tag was not found in the queue."]))
      ↔ ("<@" ++ user ++ ">") ∉ q.tags := by
  have hpos : q.tags.length > 0 := List.length_pos.mpr hne
  constructor
  · intro heq hmem
    obtain ⟨n, hfind⟩ := findTagIndex_isSome_of_mem hmem
    rw [approve_eq_found sh text user i q n (Nat.not_lt.mpr hlen) hid hq
      hpos hfind] at heq
    have h3 := congrArg (fun r => r.2.getD 2 Event.lock) heq
    simp only [List.cons_append, List.getD_cons_succ, List.getD_cons_zero] at h3
    exact absurd (by injection h3) (by decide :
      ¬ "Queue approved and tag removed." =
        "Your tag was not found in the queue.")
  · intro hnot
    exact approve_eq_absent sh text user i q (Nat.not_lt.mpr hlen) hid hq hpos
      ((findTagIndex_eq_none_iff _ _).mpr hnot)

/-- C10 witness: the entry tagged with bare `@alice` can never be approved
by `alice`, whose tag representation is `<@alice>`. -/
theorem approve_exact_tag_format_iff_witness :
    handleQueueApprove shBare "queue approve 1" "alice" =
      (shBare, [Event.lock, Event.unlock,
                Event.post "Your tag was not found in the queue."]) :=
  (approve_exact_tag_format_iff shBare "queue approve 1" "alice" 1 qBare
    (by decide) (by decide) (by decide) (by decide)).mpr (by decide)

theorem handleQueueAdd_state (sh : SlackHandler) (text user : String)
    (hl : ¬ (fields text).length < 4) :
    (handleQueueAdd sh text user).1 =
      { queues := sh.queues ++ [(sh.nextID,
          { id := sh.nextID
            title := (fields text).getD 2 ""
            mrLink := (fields text).getD 3 ""
            tags := (fields text).drop 4
            owner := user
            inReviewState := false })],
        nextID := sh.nextID + 1 } := by
  unfold handleQueueAdd
  rw [if_neg hl]

theorem handleQueueAdd_state_short (sh : SlackHandler) (text user : String)
    (hl : (fields text).length < 4) :
    (handleQueueAdd sh text user).1 = sh := by
  unfold handleQueueAdd
  rw [if_pos hl]

/-- Repeated `handleQueueAdd` invocations within one process lifetime. -/
def runAdds (sh : SlackHandler) : List (String × String) → SlackHandler
  | [] => sh
  | op :: ops => runAdds (handleQueueAdd sh op.1 op.2).1 ops

/-- Registry id invariant: every stored id is below the counter and the
stored ids are strictly increasing in insertion order. -/
def IdsOK (sh : SlackHandler) : Prop :=
  (∀ k ∈ sh.queues.map Prod.fst, k < sh.nextID) ∧
    (sh.queues.map Prod.fst).Pairwise (· < ·)

theorem IdsOK_handleQueueAdd (sh : SlackHandler) (t u : String)
    (h : IdsOK sh) : IdsOK (handleQueueAdd sh t u).1 := by
  obtain ⟨hb, hp⟩ := h
  by_cases hl : (fields t).length < 4
  · rw [handleQueueAdd_state_short sh t u hl]
    exact ⟨hb, hp⟩
  · rw [handleQueueAdd_state sh t u hl]
    constructor
    · intro k hk
      show k < sh.nextID + 1
      simp only [List.map_append, List.map_cons, List.map_nil,
        List.mem_append, List.mem_singleton] at hk
      rcases hk with hk | hk
      · have := hb k hk
        omega
      · omega
    · simp only [List.map_append, List.map_cons, List.map_nil]
      rw [List.pairwise_append]
      refine ⟨hp, by simp, ?_⟩
      intro a ha b hb'
      simp only [List.mem_singleton] at hb'
      rw [hb']
      exact hb a ha

theorem IdsOK_runAdds :
    ∀ (ops : List (String × String)) (sh : SlackHandler),
      IdsOK sh → IdsOK (runAdds sh ops)
  | [], _, h => h
  | op :: ops, sh, h =>
    IdsOK_runAdds ops (handleQueueAdd sh op.1 op.2).1
      (IdsOK_handleQueueAdd sh op.1 op.2 h)

/-- Two's-complement wraparound to Go's 64-bit `int` range. -/
def wrap64 (n : Int) : Int :=
  (n + 2 ^ 63) % 2 ^ 64 - 2 ^ 63

/-- `handleQueueAdd` with the counter increment `sh.NextID++` modelled
exactly as Go's 64-bit two's-complement increment, which wraps at
`MaxInt64`.  `handleQueueAdd` is its no-overflow idealisation; the two
coincide on every run short enough for the counter not to reach
`MaxInt64` (`runAddsWrap_eq_runAdds`). -/
def handleQueueAddWrap (sh : SlackHandler) (text user : String) :
    SlackHandler × List Event :=
  let parts := fields text
  if parts.length < 4 then
    (sh, [Event.post "Usage: queue add <title> <MR link> @tag @tag"])
  else
    let queue : Queue :=
      { id := sh.nextID
        title := parts.getD 2 ""
        mrLink := parts.getD 3 ""
        tags := parts.drop 4
        owner := user
        inReviewState := false }
    let sh' : SlackHandler :=
      { queues := sh.queues ++ [(sh.nextID, queue)],
        nextID := wrap64 (sh.nextID + 1) }
    let msg := "Queue added: *" ++ queue.title ++ "*\nMR Link: " ++ queue.mrLink
      ++ "\nTags: " ++ strJoin ", " queue.tags
    (sh', [Event.lock, Event.post msg, Event.unlock])

/-- Repeated wrapping `handleQueueAddWrap` invocations. -/
def runAddsWrap (sh : SlackHandler) : List (String × String) → SlackHandler
  | [] => sh
  | op :: ops => runAddsWrap (handleQueueAddWrap sh op.1 op.2).1 ops

theorem wrap64_eq_self (n : Int) (h1 : -2 ^ 63 ≤ n) (h2 : n < 2 ^ 63) :
    wrap64 n = n := by
  have e63 : (2 : Int) ^ 63 = 9223372036854775808 := by norm_num
  have e64 : (2 : Int) ^ 64 = 18446744073709551616 := by norm_num
  rw [e63] at h1 h2
  unfold wrap64
  rw [e63, e64, Int.emod_eq_of_lt (by omega) (by omega)]
  omega

theorem handleQueueAddWrap_eq (sh : SlackHandler) (t u : String)
    (h1 : -2 ^ 63 ≤ sh.nextID + 1) (h2 : sh.nextID + 1 < 2 ^ 63) :
    handleQueueAddWrap sh t u = handleQueueAdd sh t u := by
  unfold handleQueueAddWrap handleQueueAdd
  rw [wrap64_eq_self (sh.nextID + 1) h1 h2]

theorem handleQueueAdd_nextID_ge (sh : SlackHandler) (t u : String) :
    sh.nextID ≤ (handleQueueAdd sh t u).1.nextID := by
  by_cases hl : (fields t).length < 4
  · rw [handleQueueAdd_state_short sh t u hl]
  · rw [handleQueueAdd_state sh t u hl]
    show sh.nextID ≤ sh.nextID + 1
    omega

theorem handleQueueAdd_nextID_le (sh : SlackHandler) (t u : String) :
    (handleQueueAdd sh t u).1.nextID ≤ sh.nextID + 1 := by
  by_cases hl : (fields t).length < 4
  · rw [handleQueueAdd_state_short sh t u hl]
    omega
  · rw [handleQueueAdd_state sh t u hl]

theorem runAddsWrap_eq_runAdds :
    ∀ (ops : List (String × String)) (sh : SlackHandler),
      1 ≤ sh.nextID → sh.nextID + (ops.length : Int) ≤ 2 ^ 63 - 1 →
      runAddsWrap sh ops = runAdds sh ops := by
  intro ops
  induction ops with
  | nil => intro sh _ _; rfl
  | cons op ops ih =>
    intro sh h1 h2
    have e63 : (2 : Int) ^ 63 = 9223372036854775808 := by norm_num
    rw [e63] at h2
    simp only [List.length_cons] at h2
    have hw : handleQueueAddWrap sh op.1 op.2 = handleQueueAdd sh op.1 op.2 :=
      handleQueueAddWrap_eq sh op.1 op.2 (by rw [e63]; omega)
        (by rw [e63]; omega)
    show runAddsWrap (handleQueueAddWrap sh op.1 op.2).1 ops =
        runAdds (handleQueueAdd sh op.1 op.2).1 ops
    rw [hw]
    apply ih
    · have := handleQueueAdd_nextID_ge sh op.1 op.2
      omega
    · have := handleQueueAdd_nextID_le sh op.1 op.2
      rw [e63]
      omega

/-- C2: with the counter increment modelled as Go's wrapping 64-bit
`NextID++`, the counter never decreases across an add while it is below
`MaxInt64`, and the ids assigned by any sequence of at most `2 ^ 63 - 2`
adds starting from the fresh handler — more adds than one process lifetime
can perform before the counter would wrap — are strictly increasing in
insertion order, so no id is ever assigned to two entries. -/
theorem add_ids_strictly_increasing_unique :
    (∀ (sh : SlackHandler) (t u : String),
        -2 ^ 63 ≤ sh.nextID → sh.nextID < 2 ^ 63 - 1 →
        sh.nextID ≤ (handleQueueAddWrap sh t u).1.nextID) ∧
    (∀ ops : List (String × String),
        (ops.length : Int) ≤ 2 ^ 63 - 2 →
        ((runAddsWrap newSlackHandler ops).queues.map Prod.fst).Pairwise
          (· < ·)) := by
  have e63 : (2 : Int) ^ 63 = 9223372036854775808 := by norm_num
  constructor
  · intro sh t u hlo hhi
    rw [e63] at hlo hhi
    rw [handleQueueAddWrap_eq sh t u (by rw [e63]; omega) (by rw [e63]; omega)]
    exact handleQueueAdd_nextID_ge sh t u
  · intro ops hops
    rw [e63] at hops
    rw [runAddsWrap_eq_runAdds ops newSlackHandler (by decide)
      (by show (1 : Int) + (ops.length : Int) ≤ 2 ^ 63 - 1; rw [e63]; omega)]
    refine (IdsOK_runAdds ops newSlackHandler ⟨?_, ?_⟩).2
    · intro k hk
      simp [newSlackHandler] at hk
    · simp [newSlackHandler]

/-- C2 witness: a concrete two-add run of the wrapping model assigns
strictly increasing ids, and one wrapping add from the fresh handler does
not decrease the counter. -/
theorem add_ids_strictly_increasing_unique_witness :
    newSlackHandler.nextID ≤
      (handleQueueAddWrap newSlackHandler "queue add T L" "bob").1.nextID ∧
    ((runAddsWrap newSlackHandler
        [("queue add T L", "bob"), ("queue add U M", "eve")]).queues.map
          Prod.fst).Pairwise (· < ·) :=
  ⟨add_ids_strictly_increasing_unique.1 newSlackHandler "queue add T L" "bob"
      (by decide) (by decide),
   add_ids_strictly_increasing_unique.2
      [("queue add T L", "bob"), ("queue add U M", "eve")] (by decide)⟩

/-- C5 counterexample: adding `queue add T L` to the fresh handler assigns
id 1 to the new entry, but the confirmation message does not contain the
decimal rendering of that id anywhere. -/
theorem add_confirmation_omits_id_cex :
    (handleQueueAdd newSlackHandler "queue add T L" "bob").1.queues.map
        Prod.fst = [1] ∧
    postsOf (handleQueueAdd newSlackHandler "queue add T L" "bob").2 =
      ["Queue added: *T*\nMR Link: L\nTags: "] ∧
    strContains "Queue added: *T*\nMR Link: L\nTags: " (intToStr 1) =
      false := by
  decide

/-- C5 amended: an add invocation with at least a title and a link token
allocates a new id, constructs the entry with `inReviewState = false`,
appends it to the registry, increments the counter, and posts a single
confirmation containing the title, the link and the joined tag list — but
not the id. -/
theorem add_inserts_entry_and_confirms
    (sh : SlackHandler) (text user : String)
    (hlen : 4 ≤ (fields text).length) :
    (handleQueueAdd sh text user).1.queues =
      sh.queues ++ [(sh.nextID,
        { id := sh.nextID
          title := (fields text).getD 2 ""
          mrLink := (fields text).getD 3 ""
          tags := (fields text).drop 4
          owner := user
          inReviewState := false })] ∧
    (handleQueueAdd sh text user).1.nextID = sh.nextID + 1 ∧
    postsOf (handleQueueAdd sh text user).2 =
      ["Queue added: *" ++ (fields text).getD 2 "" ++ "*\nMR Link: "
        ++ (fields text).getD 3 "" ++ "\nTags: "
        ++ strJoin ", " ((fields text).drop 4)] := by
  have hl : ¬ (fields text).length < 4 := Nat.not_lt.mpr hlen
  refine ⟨?_, ?_, ?_⟩
  · rw [handleQueueAdd_state sh text user hl]
  · rw [handleQueueAdd_state sh text user hl]
  · unfold handleQueueAdd
    rw [if_neg hl]
    exact rfl

/-- C5 witness: a concrete add with two tags inserts the expected entry and
posts the expected confirmation. -/
theorem add_inserts_entry_and_confirms_witness :
    (handleQueueAdd newSlackHandler "queue add T L <@a> <@b>" "bob").1.queues =
      newSlackHandler.queues ++ [(newSlackHandler.nextID,
        { id := newSlackHandler.nextID
          title := (fields "queue add T L <@a> <@b>").getD 2 ""
          mrLink := (fields "queue add T L <@a> <@b>").getD 3 ""
          tags := (fields "queue add T L <@a> <@b>").drop 4
          owner := "bob"
          inReviewState := false })] ∧
    (handleQueueAdd newSlackHandler "queue add T L <@a> <@b>" "bob").1.nextID =
      newSlackHandler.nextID + 1 ∧
    postsOf (handleQueueAdd newSlackHandler "queue add T L <@a> <@b>" "bob").2 =
      ["Queue added: *" ++ (fields "queue add T L <@a> <@b>").getD 2 ""
        ++ "*\nMR Link: " ++ (fields "queue add T L <@a> <@b>").getD 3 ""
        ++ "\nTags: "
        ++ strJoin ", " ((fields "queue add T L <@a> <@b>").drop 4)] :=
  add_inserts_entry_and_confirms newSlackHandler "queue add T L <@a> <@b>"
    "bob" (by decide)

theorem renderQueueLine_occurs (qs : List (Int × Queue)) :
    ∀ p ∈ qs,
      List.IsInfix (renderQueueLine p.2).data (renderQueueList qs).data := by
  induction qs with
  | nil => intro p hp; simp at hp
  | cons a rest ih =>
    intro p hp
    rcases List.mem_cons.mp hp with rfl | hp
    · refine ⟨[], (renderQueueList rest).data, ?_⟩
      simp [renderQueueList, String.data_append]
    · obtain ⟨s, t, hst⟩ := ih p hp
      refine ⟨(renderQueueLine a.2).data ++ s, t, ?_⟩
      rw [renderQueueList, String.data_append, ← hst]
      simp [List.append_assoc]

/-- C6: on an empty registry, `handleQueueList` posts exactly the fixed
"no queues" message; on a non-empty registry it posts one rendering that
contains, for every current entry, that entry's full display line — which
shows `Owner: <@...>` exactly when `inReviewState` is true and the joined
tag list otherwise. -/
theorem list_empty_message_and_renders_entries (sh : SlackHandler) :
    (sh.queues = [] →
      handleQueueList sh =
        (sh, [Event.lock, Event.post "No queues available.", Event.unlock])) ∧
    (sh.queues ≠ [] →
      postsOf (handleQueueList sh).2 = [renderQueueList sh.queues] ∧
      ∀ p ∈ sh.queues,
        List.IsInfix
          ("ID: " ++ intToStr p.2.id ++ " | Title: " ++ p.2.title ++ " | MR: "
            ++ p.2.mrLink ++ " | "
            ++ (if p.2.inReviewState then "Owner: <@" ++ p.2.owner ++ ">"
                else "Tags: " ++ strJoin ", " p.2.tags) ++ "\n").data
          (renderQueueList sh.queues).data) := by
  constructor
  · intro he
    unfold handleQueueList
    rw [if_pos (by simp [he])]
  · intro hne
    constructor
    · unfold handleQueueList
      rw [if_neg (by simp [hne])]
      exact rfl
    · intro p hp
      have h := renderQueueLine_occurs sh.queues p hp
      simpa [renderQueueLine] using h

/-- C6 witness: concrete empty and non-empty registries. -/
theorem list_empty_message_and_renders_entries_witness :
    handleQueueList newSlackHandler =
      (newSlackHandler,
       [Event.lock, Event.post "No queues available.", Event.unlock]) ∧
    postsOf (handleQueueList shEx).2 = [renderQueueList shEx.queues] :=
  ⟨(list_empty_message_and_renders_entries newSlackHandler).1 rfl,
   ((list_empty_message_and_renders_entries shEx).2 (by decide)).1⟩

/-- C7: `handleQueueReview` followed by `handleQueueUpdate` on the same id
leaves the entry with `inReviewState = false` and its tags, title, link,
owner and id exactly as before the pair of operations, and leaves every
other entry untouched. -/
theorem review_then_update_restores
    (sh : SlackHandler) (textR textU : String) (i : Int) (q : Queue)
    (hR : parseQueueID textR = Except.ok i)
    (hU : parseQueueID textU = Except.ok i)
    (hq : findQueue sh.queues i = some q) :
    findQueue
        (handleQueueUpdate (handleQueueReview sh textR).1 textU).1.queues i =
      some { q with inReviewState := false } ∧
    ∀ j, j ≠ i →
      findQueue
          (handleQueueUpdate (handleQueueReview sh textR).1 textU).1.queues j =
        findQueue sh.queues j := by
  have h1 : findQueue (handleQueueReview sh textR).1.queues i =
      some { q with inReviewState := true } := by
    rw [review_eq_found sh textR i q hR hq]
    exact findQueue_updateQueue_self
      (fun q' => { q' with inReviewState := true }) sh.queues i q hq
  simp only [update_eq_found (handleQueueReview sh textR).1 textU i
    { q with inReviewState := true } hU h1]
  constructor
  · rw [findQueue_updateQueue_self
      (fun q' => { q' with inReviewState := false })
      (handleQueueReview sh textR).1.queues i
      { q with inReviewState := true } h1]
  · intro j hj
    rw [findQueue_updateQueue_ne
      (fun q' => { q' with inReviewState := false })
      (handleQueueReview sh textR).1.queues i j hj,
      review_eq_found sh textR i q hR hq]
    exact findQueue_updateQueue_ne
      (fun q' => { q' with inReviewState := true }) sh.queues i j hj

/-- C7 witness: review then update on the example entry restores
`inReviewState = false` with tags intact. -/
theorem review_then_update_restores_witness :
    findQueue
        (handleQueueUpdate (handleQueueReview shEx "queue review 1").1
          "queue update 1").1.queues 1 =
      some { qEx with inReviewState := false } ∧
    ∀ j, j ≠ (1 : Int) →
      findQueue
          (handleQueueUpdate (handleQueueReview shEx "queue review 1").1
            "queue update 1").1.queues j =
        findQueue shEx.queues j :=
  review_then_update_restores shEx "queue review 1" "queue update 1" 1 qEx
    rfl rfl (by decide)

/-- C9 amended: `handleQueueList` does not release the Registry lock
before delivering its reply: on every state its event trace is exactly
lock, post, unlock, so the posted message — the fixed "no queues" notice
or the rendered snapshot — is always delivered while the lock is held,
and the lock is released only after the post. -/
theorem list_posts_before_releasing_lock (sh : SlackHandler) :
    (∃ m, (handleQueueList sh).2 =
        [Event.lock, Event.post m, Event.unlock]) ∧
    postsWhileLocked (handleQueueList sh).2 = true := by
  unfold handleQueueList
  split
  · exact ⟨⟨"No queues available.", rfl⟩, rfl⟩
  · exact ⟨⟨renderQueueList sh.queues, rfl⟩, rfl⟩

/-- C9 counterexample: on the concrete one-entry state, `handleQueueList`
posts its rendered snapshot while the mutex is held — contradicting the
claim that list releases the lock before posting. -/
theorem list_posts_under_lock_cex :
    postsWhileLocked (handleQueueList shEx).2 = true := by decide

